import Mathlib

/-!
Shallow embedding of `parser/class_parser.go` from the PlantUML class-diagram
generator for Go projects, together with theorems checking the natural-language
specification against it.

Modelling conventions:
* Go strings are Lean `String`s; identifiers are treated as ASCII, so the
  byte-indexing `name[0]` of the Go code coincides with the first `Char` of
  the Lean string's character list.
* The unordered Go maps `structure` (package name → type name → *Struct),
  `allInterfaces` and `allStructs` are modelled as association lists / lists
  that preserve insertion order; this is a determinisation of Go's
  unordered-map iteration, which the spec itself flags as non-deterministic.
* In-place mutation through `*Struct` pointers becomes explicit state passing:
  every Go statement that mutates a struct reads the entry, applies the
  change, and writes it back.
* Go panics (indexing an empty identifier) are modelled by `Option`:
  rendering returns `none` exactly where the Go code would panic.
* The external collaborator `go/parser.ParseDir` is modelled as an
  already-computed `Except String (List Package)` handed to
  `newClassDiagram`.
-/

namespace GoPlantUml

/-- A struct/interface field: name plus the textual type expression, as in the
repository's `Field` entity. -/
structure Field where
  name : String
  type_ : String
deriving DecidableEq, Repr

/-- A method: name, ordered (parameter name, parameter type) pairs, ordered
return-value types, as in the repository's `Function` entity. -/
structure Function where
  name : String
  parameters : List (String × String)
  returnValues : List String
deriving DecidableEq, Repr

/-- The repository's `Struct` entity: owning package, kind (`""` unset,
`"class"` or `"interface"`), fields, methods, composition references and
extends references. -/
structure Struct where
  packageName : String
  type_ : String
  fields : List Field
  functions : List Function
  composition : List String
  extends_ : List String
deriving DecidableEq, Repr

/-- The `ClassParser` state: package name → type name → Struct (association
list standing for the Go map), the package currently being parsed, and the
accumulating `allInterfaces` / `allStructs` sets. -/
structure ClassParser where
  structure_ : List (String × List (String × Struct))
  currentPackageName : String
  allInterfaces : List String
  allStructs : List String
deriving DecidableEq, Repr

/-- Association-list lookup, modelling a read of a Go map. -/
def lookupA {α : Type} : List (String × α) → String → Option α
  | [], _ => none
  | (k, v) :: rest, key => if k = key then some v else lookupA rest key

/-- Association-list write, modelling `m[key] = v` on a Go map: update the
existing entry or append a new one. -/
def setA {α : Type} : List (String × α) → String → α → List (String × α)
  | [], key, v => [(key, v)]
  | (k, w) :: rest, key, v =>
    if k = key then (key, v) :: rest else (k, w) :: setA rest key v

/-- Membership-checking insertion, modelling `set[key] = struct{}{}` on a Go
map used as a set. -/
def setInsert (l : List String) (key : String) : List String :=
  if key ∈ l then l else l ++ [key]

/-- The zero-value `Struct` built by `getOrCreateStruct` on a miss
(class_parser.go lines 247-254). -/
def newStruct (pkg : String) : Struct :=
  { packageName := pkg, type_ := "", fields := [], functions := [],
    composition := [], extends_ := [] }

/-- The type-name → Struct map of the current package, `nil` read as empty. -/
def curPkgMap (p : ClassParser) : List (String × Struct) :=
  (lookupA p.structure_ p.currentPackageName).getD []

/-- Lookup of the entity `name` in the current package. -/
def lookupCur (p : ClassParser) (name : String) : Option Struct :=
  lookupA (curPkgMap p) name

/-- Read-modify-write of the entity `name` in the current package, covering
the Go pattern `p.getOrCreateStruct(name).<mutate>` (lines 244-258): the
entity is created with zero values if absent, then mutated in place. -/
def modifyStruct (p : ClassParser) (name : String) (f : Struct → Struct) : ClassParser :=
  let st := (lookupCur p name).getD (newStruct p.currentPackageName)
  { p with structure_ := setA p.structure_ p.currentPackageName (setA (curPkgMap p) name (f st)) }

/-- Modelled from the spec: `Struct.AddField` (not under src/). A named field
appends a `Field` with the type-expression text; an anonymous (embedded)
field appends the referenced type name to the composition set instead. -/
inductive RawField where
  | named (name : String) (type_ : String)
  | anonymous (type_ : String)
deriving DecidableEq, Repr

/-- Modelled from the spec: the body of `Struct.AddField` (not under src/),
faithful to §3 and §4.1 of the specification. -/
def Struct.addField (f : RawField) (st : Struct) : Struct :=
  match f with
  | .named n t => { st with fields := st.fields ++ [{ name := n, type_ := t }] }
  | .anonymous t => { st with composition := st.composition ++ [t] }

/-- Modelled from the spec: `Struct.AddMethod` (not under src/) appends one
`Method` (name, ordered parameters, ordered return types) to the entity. -/
def Struct.addMethod (m : Function) (st : Struct) : Struct :=
  { st with functions := st.functions ++ [m] }

/-- The type expression of a `TypeSpec`, at the granularity the code
discriminates (`*ast.StructType`, `*ast.InterfaceType`, anything else). -/
inductive TypeExprAst where
  | structType (fields : List RawField)
  | interfaceType (methods : List Function)
  | otherType
deriving DecidableEq, Repr

/-- A declaration spec: `*ast.TypeSpec` or any other spec kind. -/
inductive SpecAst where
  | typeSpec (name : String) (ty : TypeExprAst)
  | otherSpec
deriving DecidableEq, Repr

/-- A top-level declaration, at the granularity of `parseFileDeclarations`:
a `GenDecl` (of which only the first spec is inspected) or a `FuncDecl`
whose receiver, if any, is embedded as its textual type. -/
inductive Decl where
  | genDecl (spec0 : SpecAst) (restSpecs : List SpecAst)
  | funcDecl (recvType : Option String) (name : String)
      (parameters : List (String × String)) (returnValues : List String)
deriving DecidableEq, Repr

/-- Modelled from the spec: `getFieldType` (not under src/) renders a type
expression as written; since receivers are embedded directly as their
textual form, it is the identity here. -/
def getFieldType (typeText : String) : String := typeText

/-- The receiver normalisation `if theType[0] == '*' { theType = theType[1:] }`
(lines 143-145). Go would panic on an empty receiver text, which the AST
never produces; the wildcard branch covers it harmlessly. -/
def stripStar (s : String) : String :=
  match s.data with
  | '*' :: rest => String.mk rest
  | _ => s

/-- Embeds `parseFileDeclarations` (lines 98-160): record struct fields and set kind
`"class"`, record interface methods and set kind `"interface"`, register the
fully-qualified name in `allStructs`/`allInterfaces`, and attach receiver
methods (defaulting an unset kind to `"class"`). -/
def parseFileDeclarations (p : ClassParser) (node : Decl) : ClassParser :=
  match node with
  | .genDecl spec0 _ =>
    match spec0 with
    | .otherSpec => p
    | .typeSpec typeName ty =>
      match ty with
      | .otherType => p
      | .structType fs =>
        let p := fs.foldl (fun p f => modifyStruct p typeName (Struct.addField f)) p
        let p := modifyStruct p typeName (fun st => { st with type_ := "class" })
        let fullName := p.currentPackageName ++ "." ++ typeName
        { p with allStructs := setInsert p.allStructs fullName }
      | .interfaceType ms =>
        let p := ms.foldl (fun p m => modifyStruct p typeName (Struct.addMethod m)) p
        let p := modifyStruct p typeName (fun st => { st with type_ := "interface" })
        let fullName := p.currentPackageName ++ "." ++ typeName
        { p with allInterfaces := setInsert p.allInterfaces fullName }
  | .funcDecl recv name params rets =>
    match recv with
    | none => p
    | some recvText =>
      let theType := stripStar (getFieldType recvText)
      modifyStruct p theType (fun st =>
        let st := if st.type_ = "" then { st with type_ := "class" } else st
        Struct.addMethod { name := name, parameters := params, returnValues := rets } st)

/-- An `ast.Package`: its name and its files (file name and declarations). -/
structure Package where
  name : String
  files : List (String × List Decl)
deriving DecidableEq, Repr

/-- Embeds `parsePackage` (lines 81-95): set the current package, create its entry
if absent, and parse the declarations of every non-test file. -/
def parsePackage (p : ClassParser) (pack : Package) : ClassParser :=
  let p := { p with currentPackageName := pack.name }
  let p :=
    if (lookupA p.structure_ p.currentPackageName).isSome then p
    else { p with structure_ := setA p.structure_ p.currentPackageName [] }
  pack.files.foldl
    (fun p file =>
      if file.1.endsWith "_test.go" then p
      else file.2.foldl parseFileDeclarations p)
    p

/-- Embeds `strings.SplitN(structName, ".", 2)` restricted to what `getStruct`
needs: the text before the first `.` and the text after it — `none` when
there is no dot, in which case Go's `split[1]` would panic (unreachable for
the fully-qualified names the code passes in). -/
def splitOnDot : List Char → Option (List Char × List Char)
  | [] => none
  | c :: rest =>
    if c = '.' then some ([], rest)
    else (splitOnDot rest).map (fun q => (c :: q.1, q.2))

/-- String-level wrapper of `splitOnDot`. -/
def splitFirstDot (s : String) : Option (String × String) :=
  (splitOnDot s.data).map (fun q => (String.mk q.1, String.mk q.2))

/-- Embeds `getStruct` (lines 261-268): split the qualified name on the first dot
and look the entity up, `none` when absent. -/
def getStruct (p : ClassParser) (structName : String) : Option Struct :=
  match splitFirstDot structName with
  | none => none
  | some (pack, rest) =>
    match lookupA p.structure_ pack with
    | none => none
    | some m => lookupA m rest

/-- Modelled from the spec: `Struct.ImplementsInterface` (not under src/).
Per §4.2, a record implements an interface iff every method declared on the
interface has on the record a method with identical name, identical ordered
parameter type sequence, and identical ordered return-type sequence. -/
def implementsInterface (st inter : Struct) : Bool :=
  inter.functions.all (fun f1 =>
    st.functions.any (fun f2 =>
      f1.name == f2.name
        && f1.parameters.map Prod.snd == f2.parameters.map Prod.snd
        && f1.returnValues == f2.returnValues))

/-- Modelled from the spec: `Struct.AddToExtends` (not under src/) appends
the interface's fully-qualified name to the record's extends set; the write
through the `*Struct` pointer becomes a map-entry update. -/
def addToExtends (p : ClassParser) (structName : String) (interName : String) : ClassParser :=
  match splitFirstDot structName with
  | none => p
  | some (pack, rest) =>
    match lookupA p.structure_ pack with
    | none => p
    | some m =>
      match lookupA m rest with
      | none => p
      | some st =>
        let m2 := setA m rest { st with extends_ := st.extends_ ++ [interName] }
        { p with structure_ := setA p.structure_ pack m2 }

/-- One iteration of the inner interface loop of `NewClassDiagram` (lines
69-74): the struct (read fresh from the state, which its in-place mutation
keeps identical to Go's pointer snapshot since only `extends` ever changes)
is tested against the interface and the edge added on success. -/
def resolveStepInner (s : String) (acc2 : ClassParser) (i : String) : ClassParser :=
  match getStruct acc2 s, getStruct acc2 i with
  | some st, some inter =>
    if implementsInterface st inter then addToExtends acc2 s i else acc2
  | _, _ => acc2

/-- One iteration of the outer struct loop of `NewClassDiagram` (lines
66-76): a registered struct, if present, is tested against every registered
interface. -/
def resolveStepOuter (acc : ClassParser) (s : String) : ClassParser :=
  match getStruct acc s with
  | none => acc
  | some _ => acc.allInterfaces.foldl (resolveStepInner s) acc

/-- The interface-satisfaction pass of `NewClassDiagram` (lines 66-76): for
every registered struct and every registered interface, add an extends edge
when the struct implements the interface. -/
def resolveInterfaces (p : ClassParser) : ClassParser :=
  p.allStructs.foldl resolveStepOuter p

/-- The freshly-initialised parser of `NewClassDiagram` (lines 53-57). -/
def emptyParser : ClassParser :=
  { structure_ := [], currentPackageName := "", allInterfaces := [], allStructs := [] }

/-- Embeds `NewClassDiagram` (lines 52-78) with the external `parser.ParseDir`
result passed in: propagate its error unchanged (returning no model), else
parse every package and run the interface-satisfaction pass. -/
def newClassDiagram (parsed : Except String (List Package)) : Except String ClassParser :=
  match parsed with
  | .error e => .error e
  | .ok packages => .ok (resolveInterfaces (packages.foldl parsePackage emptyParser))

/-- The tab constant (line 32). -/
def tab : String := "    "

/-- Embeds `strings.Repeat(tab, depth)`. -/
def tabs : Nat → String
  | 0 => ""
  | n + 1 => tab ++ tabs n

/-- Embeds `LineStringBuilder.WriteLineWithDepth` (lines 35-39): leading tabs, the
text, and a newline. -/
def writeLineWithDepth (depth : Nat) (s : String) : String :=
  tabs depth ++ s ++ "\n"

/-- Embeds `unicode.IsLower(rune(name[0]))` restricted to ASCII identifiers. -/
def goIsLower (c : Char) : Bool :=
  'a' ≤ c && c ≤ 'z'

/-- The fields loop of `Render` (lines 177-187), threading the
`privateFields` and `publicFields` buffers; `none` models the panic of
`field.Name[0]` on an empty name. -/
def renderFieldsAux : List Field → String → String → Option (String × String)
  | [], privateFields, publicFields => some (privateFields, publicFields)
  | f :: rest, privateFields, publicFields =>
    match f.name.data with
    | [] => none
    | c :: _ =>
      let accessModifier := if goIsLower c then "-" else "+"
      let line := writeLineWithDepth 2 (accessModifier ++ " " ++ f.name ++ " " ++ f.type_)
      if accessModifier = "-" then renderFieldsAux rest (privateFields ++ line) publicFields
      else renderFieldsAux rest privateFields (publicFields ++ line)

/-- The methods loop of `Render` (lines 200-218), threading the
`privateMethods` and `publicMethods` buffers; return values are printed,
parenthesised, only when there are more than one. -/
def renderMethodsAux : List Function → String → String → Option (String × String)
  | [], privateMethods, publicMethods => some (privateMethods, publicMethods)
  | m :: rest, privateMethods, publicMethods =>
    match m.name.data with
    | [] => none
    | c :: _ =>
      let accessModifier := if goIsLower c then "-" else "+"
      let parameterList := m.parameters.map (fun q => q.1 ++ " " ++ q.2)
      let returnValues :=
        if m.returnValues.length > 1 then
          "(" ++ String.intercalate ", " m.returnValues ++ ")"
        else ""
      let line := writeLineWithDepth 2
        (accessModifier ++ " " ++ m.name ++ "(" ++ String.intercalate ", " parameterList
          ++ ") " ++ returnValues)
      if accessModifier = "-" then renderMethodsAux rest (privateMethods ++ line) publicMethods
      else renderMethodsAux rest privateMethods (publicMethods ++ line)

/-- Embeds `strings.Contains(c, ".")`. -/
def containsDot (s : String) : Bool :=
  s.data.any (fun c => c = '.')

/-- The composition loop of `Render` (lines 188-193): one edge line per
composed reference, qualified with the owning type's package when the
reference carries no dot. -/
def compositionLines (pack name : String) (st : Struct) : String :=
  st.composition.foldl
    (fun acc c =>
      let c := if containsDot c then c else st.packageName ++ "." ++ c
      acc ++ writeLineWithDepth 0 (c ++ " *-- " ++ pack ++ "." ++ name))
    ""

/-- The extends loop of `Render` (lines 194-199): one edge line per extended
reference, qualified with the owning type's package when the reference
carries no dot. -/
def extendsLines (pack name : String) (st : Struct) : String :=
  st.extends_.foldl
    (fun acc c =>
      let c := if containsDot c then c else st.packageName ++ "." ++ c
      acc ++ writeLineWithDepth 0 (c ++ " <|-- " ++ pack ++ "." ++ name))
    ""

/-- The per-structure text written to `str` in `Render` (lines 176-231):
declaration line, the four member groups (each written, followed by an extra
newline, only when non-empty), and the closing brace line. -/
def structText (name : String) (st : Struct) : Option String := do
  let (privateFields, publicFields) ← renderFieldsAux st.fields "" ""
  let (privateMethods, publicMethods) ← renderMethodsAux st.functions "" ""
  pure (writeLineWithDepth 1 (st.type_ ++ " " ++ name ++ " \x7b")
    ++ (if privateFields.length > 0 then writeLineWithDepth 0 privateFields else "")
    ++ (if publicFields.length > 0 then writeLineWithDepth 0 publicFields else "")
    ++ (if privateMethods.length > 0 then writeLineWithDepth 0 privateMethods else "")
    ++ (if publicMethods.length > 0 then writeLineWithDepth 0 publicMethods else "")
    ++ writeLineWithDepth 1 "\x7d")

/-- The structures loop of `Render` (lines 171-232), threading the output
accumulator and the namespace-level `composition` and `extends` buffers. -/
def renderStructsAux (pack : String) :
    List (String × Struct) → String → String → String → Option (String × String × String)
  | [], str, composition, extends_ => some (str, composition, extends_)
  | (name, st) :: rest, str, composition, extends_ => do
    let block ← structText name st
    renderStructsAux pack rest (str ++ block)
      (composition ++ compositionLines pack name st)
      (extends_ ++ extendsLines pack name st)

/-- The namespaces loop of `Render` (lines 166-238): namespaces with at
least one structure emit a `namespace` block followed by the composition and
extends buffers (each with a trailing extra newline); empty namespaces emit
nothing. -/
def renderNamespacesAux : List (String × List (String × Struct)) → String → Option String
  | [], str => some str
  | (pack, structures) :: rest, str =>
    if structures.length > 0 then do
      let (str, composition, extends_) ←
        renderStructsAux pack structures
          (str ++ writeLineWithDepth 0 ("namespace " ++ pack ++ " \x7b")) "" ""
      renderNamespacesAux rest
        (str ++ writeLineWithDepth 0 "\x7d" ++ writeLineWithDepth 0 composition
          ++ writeLineWithDepth 0 extends_)
    else renderNamespacesAux rest str

/-- Embeds `Render` (lines 163-241): the `@startuml` line, every namespace block,
and the closing `@enduml` marker (written without a trailing newline). -/
def Render (p : ClassParser) : Option String := do
  let str ← renderNamespacesAux p.structure_ (writeLineWithDepth 0 "@startuml")
  pure (str ++ "@enduml")

/-- First index at which the pattern occurs as a contiguous sublist, used to
state where a piece of text occurs inside rendered output. -/
def findSub : List Char → List Char → Option Nat
  | _, [] => some 0
  | [], _ :: _ => none
  | c :: rest, p0 :: prest =>
    if List.isPrefixOf (p0 :: prest) (c :: rest) then some 0
    else (findSub rest (p0 :: prest)).map (fun n => n + 1)

/-- String-level first-occurrence index of a substring. -/
def strFind (hay pat : String) : Option Nat :=
  findSub hay.data pat.data

/-- Substring containment test on strings. -/
def strContainsSub (hay pat : String) : Bool :=
  (strFind hay pat).isSome

/-- Following the spec's words (§3): a first character is public iff it is an
upper-case letter (ASCII). Stated only to compare the claim's second
visibility characterisation with the code's actual lower-case test. -/
def specIsUpper (c : Char) : Bool :=
  'A' ≤ c && c ≤ 'Z'

/-- The composition buffer a namespace accumulates over its structures,
written compositionally (the structures loop threads it as an accumulator). -/
def compConcat (pack : String) : List (String × Struct) → String
  | [] => ""
  | (name, st) :: rest => compositionLines pack name st ++ compConcat pack rest

/-- The extends buffer a namespace accumulates over its structures, written
compositionally (the structures loop threads it as an accumulator). -/
def extConcat (pack : String) : List (String × Struct) → String
  | [] => ""
  | (name, st) :: rest => extendsLines pack name st ++ extConcat pack rest

/-- Every entity reachable in the namespace table (package lookup followed by
type-name lookup, exactly how the Go maps are read) has been assigned a
terminal kind. -/
def kindAssigned (p : ClassParser) : Prop :=
  ∀ pk m, lookupA p.structure_ pk = some m → ∀ n st, lookupA m n = some st →
    st.type_ = "class" ∨ st.type_ = "interface"

/-- Weakening of `kindAssigned` that exempts the entity `name` of the current
package, the one a declaration handler is in the middle of populating. -/
def kindAssignedExcept (p : ClassParser) (name : String) : Prop :=
  ∀ pk m, lookupA p.structure_ pk = some m → ∀ n st, lookupA m n = some st →
    (pk = p.currentPackageName ∧ n = name) ∨ st.type_ = "class" ∨ st.type_ = "interface"

/-- Well-formedness of a model for rendering: every field and method name is
non-empty (Go identifiers always are). -/
def wellFormed (p : ClassParser) : Prop :=
  ∀ e ∈ p.structure_, ∀ q ∈ e.2,
    (∀ f ∈ q.2.fields, f.name.data ≠ []) ∧ (∀ m ∈ q.2.functions, m.name.data ≠ [])

/-- A model holding a single type entity, used to state per-line rendering
properties end to end through `Render`. -/
def oneTypeParser (pack tname : String) (st : Struct) : ClassParser :=
  { structure_ := [(pack, [(tname, st)])], currentPackageName := "",
    allInterfaces := [], allStructs := [] }

/-- Relation between a struct and a later snapshot of it: the satisfaction
pass only ever appends to the extends set, everything else is untouched. -/
def extendsOnly (a b : Struct) : Prop :=
  b.packageName = a.packageName ∧ b.type_ = a.type_ ∧ b.fields = a.fields ∧
    b.functions = a.functions ∧ ∃ t, b.extends_ = a.extends_ ++ t

/-- Relation between two parser states across satisfaction-pass steps: the
registries and current package are unchanged and every entity evolves by
`extendsOnly` (absent entities stay absent). -/
def frame (p q : ClassParser) : Prop :=
  q.currentPackageName = p.currentPackageName ∧ q.allInterfaces = p.allInterfaces ∧
    q.allStructs = p.allStructs ∧
    ∀ n : String,
      (∀ st, getStruct p n = some st → ∃ st', getStruct q n = some st' ∧ extendsOnly st st') ∧
      (getStruct p n = none → getStruct q n = none)

/-- Package with an interface `Speaker` and a type `Dog` that is never
declared as a struct but acquires kind Record through its receiver method: a
Record in the model that the resolution pass never visits. -/
def c1Pkg : Package :=
  { name := "p",
    files := [("a.go",
      [ Decl.genDecl (SpecAst.typeSpec "Speaker" (TypeExprAst.interfaceType
          [{ name := "Speak", parameters := [], returnValues := ["string"] }])) [],
        Decl.funcDecl (some "Dog") "Speak" [] ["string"] ])] }

/-- The fully built and resolved model of `c1Pkg`. -/
def c1cp : ClassParser :=
  resolveInterfaces (([c1Pkg]).foldl parsePackage emptyParser)

/-- Package with an interface `Speaker` and a struct-declared `Cat` whose
receiver method matches the interface. -/
def c1wPkg : Package :=
  { name := "p",
    files := [("a.go",
      [ Decl.genDecl (SpecAst.typeSpec "Speaker" (TypeExprAst.interfaceType
          [{ name := "Speak", parameters := [], returnValues := ["string"] }])) [],
        Decl.genDecl (SpecAst.typeSpec "Cat" (TypeExprAst.structType [])) [],
        Decl.funcDecl (some "*Cat") "Speak" [] ["string"] ])] }

/-- The model of `c1wPkg` before the satisfaction pass. -/
def c1wParser : ClassParser :=
  ([c1wPkg]).foldl parsePackage emptyParser

/-- A parser that has entered package `p` but parsed no declarations yet. -/
def c2p0 : ClassParser := parsePackage emptyParser { name := "p", files := [] }

/-- A receiver method on the undeclared type `Dog`. -/
def c2d1 : Decl := Decl.funcDecl (some "Dog") "Bark" [] []

/-- A later interface declaration of the same name `Dog`. -/
def c2d2 : Decl := Decl.genDecl (SpecAst.typeSpec "Dog" (TypeExprAst.interfaceType [])) []

/-- State after the receiver method: `Dog` has kind Record. -/
def c2p1 : ClassParser := parseFileDeclarations c2p0 c2d1

/-- State after the interface declaration of the same name. -/
def c2p2 : ClassParser := parseFileDeclarations c2p1 c2d2

/-- A public method with exactly one return value. -/
def c3Method : Function :=
  { name := "Foo", parameters := [], returnValues := ["myreturn"] }

/-- A model whose single type has the single-return method `c3Method`. -/
def c3Parser : ClassParser :=
  oneTypeParser "p" "C"
    { packageName := "p", type_ := "class", fields := [], functions := [c3Method],
      composition := [], extends_ := [] }

/-- A model whose single type has a field whose name starts with an
underscore: neither lower-case nor an upper-case letter. -/
def c4Parser : ClassParser :=
  oneTypeParser "p" "C"
    { packageName := "p", type_ := "class", fields := [{ name := "_x", type_ := "int" }],
      functions := [], composition := [], extends_ := [] }

/-- A type entity that composes the type `E`. -/
def c6Struct : Struct :=
  { packageName := "p", type_ := "class", fields := [], functions := [],
    composition := ["E"], extends_ := [] }

/-- A model whose single type composes the type `E`, producing one
composition-edge line. -/
def c6Parser : ClassParser :=
  oneTypeParser "p" "C" c6Struct

/-- The rendered output of `c6Parser`. -/
def c6Out : String :=
  "@startuml\nnamespace p \x7b\n    class C \x7b\n    \x7d\n\x7d\np.E *-- p.C\n\n\n@enduml"

theorem lookupA_setA_self {α : Type} (l : List (String × α)) (k : String) (v : α) :
    lookupA (setA l k v) k = some v := by
  induction l with
  | nil => simp [setA, lookupA]
  | cons kv rest ih =>
    obtain ⟨k0, v0⟩ := kv
    by_cases h0 : k0 = k
    · simp [setA, h0, lookupA]
    · simp [setA, h0, lookupA, ih]

theorem lookupA_setA_ne {α : Type} (l : List (String × α)) {k k' : String} (v : α)
    (h : k' ≠ k) : lookupA (setA l k v) k' = lookupA l k' := by
  induction l with
  | nil =>
    have hk : ¬(k = k') := fun hh => h hh.symm
    simp [setA, lookupA, hk]
  | cons kv rest ih =>
    obtain ⟨k0, v0⟩ := kv
    by_cases h0 : k0 = k
    · subst h0
      have hk : ¬(k0 = k') := fun hh => h hh.symm
      simp [setA, lookupA, hk]
    · simp only [setA, if_neg h0, lookupA]
      by_cases h1 : k0 = k'
      · simp [h1]
      · simp [h1, ih]

theorem mem_setA {α : Type} {l : List (String × α)} {k : String} {v : α}
    {x : String × α} (hx : x ∈ setA l k v) : x = (k, v) ∨ x ∈ l := by
  induction l with
  | nil => simpa [setA] using hx
  | cons kv rest ih =>
    by_cases h : kv.1 = k
    · rw [show setA (kv :: rest) k v = (k, v) :: rest by simp [setA, h]] at hx
      rcases List.mem_cons.mp hx with h1 | h1
      · exact Or.inl h1
      · exact Or.inr (List.mem_cons_of_mem _ h1)
    · rw [show setA (kv :: rest) k v = kv :: setA rest k v by simp [setA, h]] at hx
      rcases List.mem_cons.mp hx with h1 | h1
      · exact Or.inr (h1 ▸ List.mem_cons_self _ _)
      · rcases ih h1 with h2 | h2
        · exact Or.inl h2
        · exact Or.inr (List.mem_cons_of_mem _ h2)

theorem lookupA_mem {α : Type} {l : List (String × α)} {k : String} {v : α}
    (h : lookupA l k = some v) : (k, v) ∈ l := by
  induction l with
  | nil => simp [lookupA] at h
  | cons kv rest ih =>
    obtain ⟨k0, v0⟩ := kv
    by_cases h0 : k0 = k
    · subst h0
      simp [lookupA] at h
      simp [h]
    · simp [lookupA, h0] at h
      exact List.mem_cons_of_mem _ (ih h)

theorem wl_length_pos (d : Nat) (s : String) : 0 < (writeLineWithDepth d s).length := by
  have : (writeLineWithDepth d s).length = (tabs d ++ s).length + 1 := by
    simp [writeLineWithDepth, String.length_append]; rfl
  omega

theorem sapp_empty (s : String) : s ++ "" = s := by
  apply String.ext; simp [String.data_append]

theorem empty_sapp (s : String) : "" ++ s = s := by
  apply String.ext; simp [String.data_append]

theorem len_newline : ("\n" : String).length = 1 := rfl

theorem startuml_line : writeLineWithDepth 0 "@startuml" = "@startuml\n" := rfl

theorem renderStructsAux_spec (pack : String) (l : List (String × Struct)) :
    ∀ str comp ext r, renderStructsAux pack l str comp ext = some r →
      (∃ b, r.1 = str ++ b) ∧ r.2.1 = comp ++ compConcat pack l
        ∧ r.2.2 = ext ++ extConcat pack l := by
  induction l with
  | nil =>
    intro str comp ext r hr
    simp only [renderStructsAux] at hr
    cases hr
    exact ⟨⟨"", (sapp_empty str).symm⟩, by simp [compConcat, sapp_empty],
      by simp [extConcat, sapp_empty]⟩
  | cons q rest ih =>
    intro str comp ext r hr
    obtain ⟨name, st⟩ := q
    simp only [renderStructsAux] at hr
    cases hblock : structText name st with
    | none =>
      rw [hblock] at hr
      simp only [Option.bind_eq_bind, Option.none_bind] at hr
      exact Option.noConfusion hr
    | some block =>
      rw [hblock] at hr
      simp only [Option.bind_eq_bind, Option.some_bind] at hr
      obtain ⟨⟨b, hb⟩, hcomp, hext⟩ := ih _ _ _ _ hr
      refine ⟨⟨block ++ b, ?_⟩, ?_, ?_⟩
      · rw [hb, String.append_assoc]
      · rw [hcomp, compConcat, String.append_assoc]
      · rw [hext, extConcat, String.append_assoc]

theorem renderNamespacesAux_ext (l : List (String × List (String × Struct))) :
    ∀ str s, renderNamespacesAux l str = some s → ∃ t, s = str ++ t := by
  induction l with
  | nil =>
    intro str s hs
    simp only [renderNamespacesAux] at hs
    cases hs
    exact ⟨"", (sapp_empty str).symm⟩
  | cons q rest ih =>
    intro str s hs
    obtain ⟨pack, structures⟩ := q
    simp only [renderNamespacesAux] at hs
    by_cases hlen : structures.length > 0
    · rw [if_pos hlen] at hs
      cases hrs : renderStructsAux pack structures
          (str ++ writeLineWithDepth 0 ("namespace " ++ pack ++ " \x7b")) "" "" with
      | none =>
        rw [hrs] at hs
        simp only [Option.bind_eq_bind, Option.none_bind] at hs
        exact Option.noConfusion hs
      | some r =>
        rw [hrs] at hs
        simp only [Option.bind_eq_bind, Option.some_bind] at hs
        obtain ⟨⟨b, hb⟩, _, _⟩ := renderStructsAux_spec pack structures _ _ _ _ hrs
        obtain ⟨t, ht⟩ := ih _ _ hs
        refine ⟨writeLineWithDepth 0 ("namespace " ++ pack ++ " \x7b") ++ b
          ++ writeLineWithDepth 0 "\x7d" ++ writeLineWithDepth 0 r.2.1
          ++ writeLineWithDepth 0 r.2.2 ++ t, ?_⟩
        rw [ht, hb]
        simp [String.append_assoc]
    · rw [if_neg hlen] at hs
      exact ih _ _ hs

/-- C9: model construction returns an error iff the external parser fails,
the parser's error is propagated unchanged with no partial model, and on
parser success it never returns an error. -/
theorem c9_error_propagation :
    (∀ e, newClassDiagram (Except.error e) = Except.error e) ∧
    (∀ pkgs, ∃ cp, newClassDiagram (Except.ok pkgs) = Except.ok cp) ∧
    (∀ parsed e, newClassDiagram parsed = Except.error e ↔ parsed = Except.error e) := by
  refine ⟨fun e => rfl, fun pkgs => ⟨_, rfl⟩, fun parsed e => ?_⟩
  cases parsed with
  | error e0 => simp [newClassDiagram]
  | ok pkgs => simp [newClassDiagram]

/-- C5 counterexample: with zero namespaces the output is the opening marker
line directly followed by the closing marker; there is no blank line between
them, so the output is not "opening marker, blank line, closing marker". -/
theorem c5_counterexample :
    emptyParser.structure_ = [] ∧
    Render emptyParser = some "@startuml\n@enduml" ∧
    ("@startuml\n@enduml" : String) ≠ "@startuml\n\n@enduml" := by
  refine ⟨rfl, rfl, by decide⟩

/-- C5 amended: with zero namespaces the output is exactly the opening
marker line immediately followed by the closing marker (no blank line); in
every case the output starts with the opening marker line and ends with the
closing marker. -/
theorem c5_amended_minimal_document :
    (∀ p : ClassParser, p.structure_ = [] → Render p = some "@startuml\n@enduml") ∧
    (∀ (p : ClassParser) (s : String), Render p = some s →
      (∃ t, s = "@startuml\n" ++ t) ∧ (∃ u, s = u ++ "@enduml")) := by
  constructor
  · intro p hp
    simp only [Render, hp, renderNamespacesAux, Option.bind_eq_bind, Option.some_bind]
    rfl
  · intro p s hs
    simp only [Render, Option.bind_eq_bind] at hs
    cases hb : renderNamespacesAux p.structure_ (writeLineWithDepth 0 "@startuml") with
    | none =>
      rw [hb] at hs
      simp only [Option.none_bind] at hs
      exact Option.noConfusion hs
    | some body =>
      rw [hb] at hs
      simp only [Option.some_bind, Option.pure_def, Option.some.injEq] at hs
      obtain ⟨t, ht⟩ := renderNamespacesAux_ext _ _ _ hb
      rw [startuml_line] at ht
      refine ⟨⟨t ++ "@enduml", ?_⟩, ⟨body, hs.symm⟩⟩
      rw [← hs, ht]
      simp [String.append_assoc]

/-- C5 witness: the amended theorem applied to the empty model. -/
theorem c5_amended_minimal_document_witness :
    Render emptyParser = some "@startuml\n@enduml" ∧
    ((∃ t, ("@startuml\n@enduml" : String) = "@startuml\n" ++ t) ∧
      (∃ u, ("@startuml\n@enduml" : String) = u ++ "@enduml")) :=
  ⟨c5_amended_minimal_document.1 emptyParser rfl,
    c5_amended_minimal_document.2 emptyParser "@startuml\n@enduml"
      (c5_amended_minimal_document.1 emptyParser rfl)⟩

/-- C7: every composition-edge and extends-edge line references its source
type namespace-qualified: a stored reference without a dot is prefixed with
the owning type's package, a reference that already contains a dot is
emitted as stored. -/
theorem c7_edge_qualification (pack tname spn c e : String) :
    Render (oneTypeParser pack tname
      { packageName := spn, type_ := "class", fields := [], functions := [],
        composition := [c], extends_ := [e] })
    = some ("@startuml" ++ "\n"
        ++ "namespace " ++ pack ++ " \x7b" ++ "\n"
        ++ "    " ++ "class" ++ " " ++ tname ++ " \x7b" ++ "\n"
        ++ "    " ++ "\x7d" ++ "\n"
        ++ "\x7d" ++ "\n"
        ++ (if containsDot c then c else spn ++ "." ++ c) ++ " *-- " ++ pack ++ "." ++ tname
        ++ "\n" ++ "\n"
        ++ (if containsDot e then e else spn ++ "." ++ e) ++ " <|-- " ++ pack ++ "." ++ tname
        ++ "\n" ++ "\n"
        ++ "@enduml") := by
  simp only [Render, oneTypeParser, renderNamespacesAux, renderStructsAux, structText,
    renderFieldsAux, renderMethodsAux, compositionLines, extendsLines, writeLineWithDepth,
    tabs, tab, List.foldl, List.length_cons, List.length_nil, gt_iff_lt, Nat.zero_lt_succ,
    if_true, Option.bind_eq_bind, Option.some_bind, Option.pure_def]
  refine congrArg some (String.ext ?_)
  simp [String.data_append]

/-- C3 counterexample: a method with exactly one return value is rendered
with nothing after its parameter list — the return type `myreturn` appears
nowhere in the output, so it is not "printed without parentheses". -/
theorem c3_counterexample :
    c3Method.returnValues = ["myreturn"] ∧
    Render c3Parser
      = some "@startuml\nnamespace p \x7b\n    class C \x7b\n        + Foo() \n\n    \x7d\n\x7d\n\n\n@enduml" ∧
    strContainsSub
      "@startuml\nnamespace p \x7b\n    class C \x7b\n        + Foo() \n\n    \x7d\n\x7d\n\n\n@enduml"
      "myreturn" = false :=
  ⟨rfl, rfl, by decide⟩

/-- C3 amended: a rendered method line shows the return types after the
parameter list, joined and parenthesised, only when there are two or more of
them; with zero or one return values nothing is printed after the trailing
space. -/
theorem c3_amended_return_rendering (pack tname : String) (m : Function) (c : Char)
    (cs : List Char) (h : m.name.data = c :: cs) :
    Render (oneTypeParser pack tname
      { packageName := pack, type_ := "class", fields := [], functions := [m],
        composition := [], extends_ := [] })
    = some ("@startuml" ++ "\n"
        ++ "namespace " ++ pack ++ " \x7b" ++ "\n"
        ++ "    " ++ "class" ++ " " ++ tname ++ " \x7b" ++ "\n"
        ++ "    " ++ "    " ++ (if goIsLower c then "-" else "+") ++ " " ++ m.name ++ "("
        ++ String.intercalate ", " (m.parameters.map (fun q => q.1 ++ " " ++ q.2)) ++ ") "
        ++ (if m.returnValues.length > 1 then
              "(" ++ String.intercalate ", " m.returnValues ++ ")"
            else "")
        ++ "\n" ++ "\n"
        ++ "    " ++ "\x7d" ++ "\n"
        ++ "\x7d" ++ "\n"
        ++ "\n" ++ "\n"
        ++ "@enduml") := by
  by_cases hc : goIsLower c
  · simp only [Render, oneTypeParser, renderNamespacesAux, renderStructsAux, structText,
      renderFieldsAux, renderMethodsAux, h, hc, compositionLines, extendsLines, List.foldl,
      List.length_cons, List.length_nil, gt_iff_lt, Nat.zero_lt_succ, if_true, empty_sapp,
      wl_length_pos, String.length_empty, Option.bind_eq_bind, Option.some_bind,
      Option.pure_def, if_false, Nat.lt_irrefl]
    refine congrArg some (String.ext ?_)
    simp [String.data_append, writeLineWithDepth, tabs, tab, len_newline]
  · simp only [Render, oneTypeParser, renderNamespacesAux, renderStructsAux, structText,
      renderFieldsAux, renderMethodsAux, h, hc, compositionLines, extendsLines, List.foldl,
      List.length_cons, List.length_nil, gt_iff_lt, Nat.zero_lt_succ, if_true, empty_sapp,
      wl_length_pos, String.length_empty, Option.bind_eq_bind, Option.some_bind,
      Option.pure_def, if_false, Nat.lt_irrefl]
    refine congrArg some (String.ext ?_)
    simp [String.data_append, writeLineWithDepth, tabs, tab, len_newline]

/-- C3 witness: the spec's own example, a public method with two return
values rendered with the parenthesised pair. -/
theorem c3_amended_return_rendering_witness :
    Render (oneTypeParser "p" "C"
      { packageName := "p", type_ := "class", fields := [],
        functions := [{ name := "DoWork", parameters := [("count", "int")],
                        returnValues := ["int", "error"] }],
        composition := [], extends_ := [] })
    = some "@startuml\nnamespace p \x7b\n    class C \x7b\n        + DoWork(count int) (int, error)\n\n    \x7d\n\x7d\n\n\n@enduml" := by
  have h := c3_amended_return_rendering "p" "C"
    { name := "DoWork", parameters := [("count", "int")], returnValues := ["int", "error"] }
    'D' ['o', 'W', 'o', 'r', 'k'] rfl
  exact h.trans (by decide)

/-- C4 counterexample: a field named with a leading underscore renders with
marker `+` although its first character is not an upper-case letter, so the
claim's second characterisation (public iff upper-case first character)
fails; only the lower-case test decides the marker. -/
theorem c4_counterexample :
    Render c4Parser
      = some "@startuml\nnamespace p \x7b\n    class C \x7b\n        + _x int\n\n    \x7d\n\x7d\n\n\n@enduml" ∧
    strContainsSub
      "@startuml\nnamespace p \x7b\n    class C \x7b\n        + _x int\n\n    \x7d\n\x7d\n\n\n@enduml"
      "+ _x int" = true ∧
    goIsLower '_' = false ∧ specIsUpper '_' = false :=
  ⟨rfl, by decide, rfl, rfl⟩

/-- C4 amended: for every rendered field and method the marker is `-` iff
the name's first character is lower-case and `+` otherwise; a first
character that is neither case (digit, underscore) therefore renders `+`. -/
theorem c4_amended_visibility_markers (pack tname : String) (f : Field) (m : Function)
    (cf cm : Char) (cfs cms : List Char)
    (hf : f.name.data = cf :: cfs) (hm : m.name.data = cm :: cms) :
    Render (oneTypeParser pack tname
      { packageName := pack, type_ := "class", fields := [f], functions := [m],
        composition := [], extends_ := [] })
    = some ("@startuml" ++ "\n"
        ++ "namespace " ++ pack ++ " \x7b" ++ "\n"
        ++ "    " ++ "class" ++ " " ++ tname ++ " \x7b" ++ "\n"
        ++ "    " ++ "    " ++ (if goIsLower cf then "-" else "+") ++ " " ++ f.name ++ " "
        ++ f.type_ ++ "\n" ++ "\n"
        ++ "    " ++ "    " ++ (if goIsLower cm then "-" else "+") ++ " " ++ m.name ++ "("
        ++ String.intercalate ", " (m.parameters.map (fun q => q.1 ++ " " ++ q.2)) ++ ") "
        ++ (if m.returnValues.length > 1 then
              "(" ++ String.intercalate ", " m.returnValues ++ ")"
            else "")
        ++ "\n" ++ "\n"
        ++ "    " ++ "\x7d" ++ "\n"
        ++ "\x7d" ++ "\n"
        ++ "\n" ++ "\n"
        ++ "@enduml") := by
  by_cases hcf : goIsLower cf <;> by_cases hcm : goIsLower cm <;>
  · simp only [Render, oneTypeParser, renderNamespacesAux, renderStructsAux, structText,
      renderFieldsAux, renderMethodsAux, hf, hm, hcf, hcm, compositionLines, extendsLines,
      List.foldl, List.length_cons, List.length_nil, gt_iff_lt, Nat.zero_lt_succ, if_true,
      empty_sapp, wl_length_pos, String.length_empty, Option.bind_eq_bind, Option.some_bind,
      Option.pure_def, if_false, Nat.lt_irrefl]
    refine congrArg some (String.ext ?_)
    simp [String.data_append, writeLineWithDepth, tabs, tab, len_newline]

/-- C4 witness: the amended theorem at an underscore-named field (rendered
`+`) and an upper-case-named method (rendered `+`). -/
theorem c4_amended_visibility_markers_witness :
    Render (oneTypeParser "p" "C"
      { packageName := "p", type_ := "class", fields := [{ name := "_x", type_ := "int" }],
        functions := [{ name := "Speak", parameters := [], returnValues := ["string"] }],
        composition := [], extends_ := [] })
    = some "@startuml\nnamespace p \x7b\n    class C \x7b\n        + _x int\n\n        + Speak() \n\n    \x7d\n\x7d\n\n\n@enduml" := by
  have h := c4_amended_visibility_markers "p" "C" { name := "_x", type_ := "int" }
    { name := "Speak", parameters := [], returnValues := ["string"] }
    '_' 'S' ['x'] ['p', 'e', 'a', 'k'] rfl rfl
  exact h.trans (by decide)

theorem renderNamespacesAux_member :
    ∀ (l : List (String × List (String × Struct))) (acc s : String)
      (pack : String) (structures : List (String × Struct)),
      renderNamespacesAux l acc = some s → (pack, structures) ∈ l → structures ≠ [] →
      ∃ u blocks v, s = u ++ writeLineWithDepth 0 ("namespace " ++ pack ++ " \x7b")
        ++ blocks ++ writeLineWithDepth 0 "\x7d"
        ++ writeLineWithDepth 0 (compConcat pack structures)
        ++ writeLineWithDepth 0 (extConcat pack structures) ++ v := by
  intro l
  induction l with
  | nil => intro acc s pack structures _ hmem _; simp at hmem
  | cons q rest ih =>
    intro acc s pack structures hs hmem hne
    obtain ⟨pk, strs⟩ := q
    rcases List.mem_cons.mp hmem with heq | hmem'
    · injection heq with h1 h2
      subst h1; subst h2
      simp only [renderNamespacesAux] at hs
      have hlen : structures.length > 0 := List.length_pos.mpr hne
      rw [if_pos hlen] at hs
      cases hrs : renderStructsAux pack structures
          (acc ++ writeLineWithDepth 0 ("namespace " ++ pack ++ " \x7b")) "" "" with
      | none =>
        rw [hrs] at hs
        simp only [Option.bind_eq_bind, Option.none_bind] at hs
        exact Option.noConfusion hs
      | some r =>
        rw [hrs] at hs
        simp only [Option.bind_eq_bind, Option.some_bind] at hs
        obtain ⟨⟨b, hb⟩, hcomp, hext⟩ := renderStructsAux_spec pack structures _ _ _ _ hrs
        obtain ⟨t, ht⟩ := renderNamespacesAux_ext rest _ _ hs
        refine ⟨acc, b, t, ?_⟩
        rw [ht, hb, hcomp, hext, empty_sapp, empty_sapp]
        try simp [String.append_assoc]
    · simp only [renderNamespacesAux] at hs
      by_cases hlen : strs.length > 0
      · rw [if_pos hlen] at hs
        cases hrs : renderStructsAux pk strs
            (acc ++ writeLineWithDepth 0 ("namespace " ++ pk ++ " \x7b")) "" "" with
        | none =>
          rw [hrs] at hs
          simp only [Option.bind_eq_bind, Option.none_bind] at hs
          exact Option.noConfusion hs
        | some r =>
          rw [hrs] at hs
          simp only [Option.bind_eq_bind, Option.some_bind] at hs
          exact ih _ _ _ _ hs hmem' hne
      · rw [if_neg hlen] at hs
        exact ih _ _ _ _ hs hmem' hne

/-- C6 counterexample: in the rendered output of a one-struct model with a
composition edge, every closing brace precedes the first occurrence of the
edge line, so the edge is emitted after the namespace block is closed, not
before. -/
theorem c6_counterexample :
    Render c6Parser = some c6Out ∧
    strFind c6Out "p.E *-- p.C" = some 46 ∧
    c6Out.data.count '}' = (c6Out.data.take 46).count '}' :=
  ⟨rfl, by decide, by decide⟩

/-- C6 amended: within the output, each non-empty namespace contributes its
type-declaration blocks, then the namespace-closing brace line, and the
composition-edge and extends-edge buffers are emitted immediately after that
closing line (each followed by an extra newline), before whatever follows. -/
theorem c6_amended_edges_after_close :
    ∀ (p : ClassParser) (s pack : String) (structures : List (String × Struct)),
      Render p = some s → (pack, structures) ∈ p.structure_ → structures ≠ [] →
      ∃ u blocks v, s = u ++ writeLineWithDepth 0 ("namespace " ++ pack ++ " \x7b")
        ++ blocks ++ writeLineWithDepth 0 "\x7d"
        ++ writeLineWithDepth 0 (compConcat pack structures)
        ++ writeLineWithDepth 0 (extConcat pack structures) ++ v := by
  intro p s pack structures hs hmem hne
  simp only [Render, Option.bind_eq_bind] at hs
  cases hb : renderNamespacesAux p.structure_ (writeLineWithDepth 0 "@startuml") with
  | none =>
    rw [hb] at hs
    simp only [Option.none_bind] at hs
    exact Option.noConfusion hs
  | some body =>
    rw [hb] at hs
    simp only [Option.some_bind, Option.pure_def, Option.some.injEq] at hs
    obtain ⟨u, blocks, v, hbody⟩ :=
      renderNamespacesAux_member p.structure_ _ _ pack structures hb hmem hne
    refine ⟨u, blocks, v ++ "@enduml", ?_⟩
    rw [← hs, hbody]
    simp [String.append_assoc]

/-- C6 witness: the amended theorem applied to the one-composition model. -/
theorem c6_amended_edges_after_close_witness :
    ∃ u blocks v, c6Out = u ++ writeLineWithDepth 0 ("namespace " ++ "p" ++ " \x7b")
      ++ blocks ++ writeLineWithDepth 0 "\x7d"
      ++ writeLineWithDepth 0 (compConcat "p" [("C", c6Struct)])
      ++ writeLineWithDepth 0 (extConcat "p" [("C", c6Struct)]) ++ v :=
  c6_amended_edges_after_close c6Parser c6Out "p" [("C", c6Struct)] rfl
    (by decide) (by decide)

theorem renderFieldsAux_total (l : List Field) (h : ∀ f ∈ l, f.name.data ≠ []) :
    ∀ a b, ∃ r, renderFieldsAux l a b = some r := by
  induction l with
  | nil => intro a b; exact ⟨(a, b), rfl⟩
  | cons f rest ih =>
    intro a b
    have hf : f.name.data ≠ [] := h f (List.mem_cons_self _ _)
    have hrest : ∀ g ∈ rest, g.name.data ≠ [] := fun g hg => h g (List.mem_cons_of_mem _ hg)
    cases hname : f.name.data with
    | nil => exact absurd hname hf
    | cons c cs =>
      simp only [renderFieldsAux, hname]
      split
      · exact ih hrest _ _
      · exact ih hrest _ _

theorem renderMethodsAux_total (l : List Function) (h : ∀ m ∈ l, m.name.data ≠ []) :
    ∀ a b, ∃ r, renderMethodsAux l a b = some r := by
  induction l with
  | nil => intro a b; exact ⟨(a, b), rfl⟩
  | cons m rest ih =>
    intro a b
    have hm : m.name.data ≠ [] := h m (List.mem_cons_self _ _)
    have hrest : ∀ g ∈ rest, g.name.data ≠ [] := fun g hg => h g (List.mem_cons_of_mem _ hg)
    cases hname : m.name.data with
    | nil => exact absurd hname hm
    | cons c cs =>
      simp only [renderMethodsAux, hname]
      split
      · exact ih hrest _ _
      · exact ih hrest _ _

theorem structText_total (name : String) (st : Struct)
    (hf : ∀ f ∈ st.fields, f.name.data ≠ []) (hm : ∀ m ∈ st.functions, m.name.data ≠ []) :
    ∃ b, structText name st = some b := by
  obtain ⟨rf, hrf⟩ := renderFieldsAux_total st.fields hf "" ""
  obtain ⟨rm, hrm⟩ := renderMethodsAux_total st.functions hm "" ""
  simp only [structText, hrf, hrm, Option.bind_eq_bind, Option.some_bind, Option.pure_def]
  exact ⟨_, rfl⟩

theorem renderStructsAux_total (pack : String) (l : List (String × Struct))
    (h : ∀ q ∈ l, (∀ f ∈ q.2.fields, f.name.data ≠ []) ∧ (∀ m ∈ q.2.functions, m.name.data ≠ [])) :
    ∀ str c e, ∃ r, renderStructsAux pack l str c e = some r := by
  induction l with
  | nil => intro str c e; exact ⟨(str, c, e), rfl⟩
  | cons q rest ih =>
    intro str c e
    obtain ⟨name, st⟩ := q
    obtain ⟨hf, hm⟩ := h (name, st) (List.mem_cons_self _ _)
    have hrest := fun q hq => h q (List.mem_cons_of_mem _ hq)
    obtain ⟨block, hblock⟩ := structText_total name st hf hm
    simp only [renderStructsAux, hblock, Option.bind_eq_bind, Option.some_bind]
    exact ih hrest _ _ _

theorem renderNamespacesAux_total (l : List (String × List (String × Struct)))
    (h : ∀ e ∈ l, ∀ q ∈ e.2,
      (∀ f ∈ q.2.fields, f.name.data ≠ []) ∧ (∀ m ∈ q.2.functions, m.name.data ≠ [])) :
    ∀ acc, ∃ s, renderNamespacesAux l acc = some s := by
  induction l with
  | nil => intro acc; exact ⟨acc, rfl⟩
  | cons e rest ih =>
    intro acc
    obtain ⟨pack, structures⟩ := e
    have hhead := h (pack, structures) (List.mem_cons_self _ _)
    have hrest := fun e he => h e (List.mem_cons_of_mem _ he)
    simp only [renderNamespacesAux]
    by_cases hlen : structures.length > 0
    · rw [if_pos hlen]
      obtain ⟨r, hr⟩ := renderStructsAux_total pack structures hhead
        (acc ++ writeLineWithDepth 0 ("namespace " ++ pack ++ " \x7b")) "" ""
      simp only [hr, Option.bind_eq_bind, Option.some_bind]
      exact ih hrest _
    · rw [if_neg hlen]
      exact ih hrest _

/-- C8: rendering is total on well-formed models (all field and method names
non-empty, as Go identifiers are): it always produces output text, the
first-character indexing never fails, and the empty model renders the
minimal document. -/
theorem c8_render_total (p : ClassParser) (hp : wellFormed p) :
    ∃ s, Render p = some s := by
  obtain ⟨body, hbody⟩ := renderNamespacesAux_total p.structure_ hp
    (writeLineWithDepth 0 "@startuml")
  refine ⟨body ++ "@enduml", ?_⟩
  simp only [Render, hbody, Option.bind_eq_bind, Option.some_bind]
  rfl

/-- C8 witness: a well-formed one-type model renders successfully. -/
theorem c8_render_total_witness :
    wellFormed (oneTypeParser "p" "C"
      { packageName := "p", type_ := "class", fields := [{ name := "Name", type_ := "int" }],
        functions := [{ name := "run", parameters := [], returnValues := [] }],
        composition := [], extends_ := [] }) ∧
    ∃ s, Render (oneTypeParser "p" "C"
      { packageName := "p", type_ := "class", fields := [{ name := "Name", type_ := "int" }],
        functions := [{ name := "run", parameters := [], returnValues := [] }],
        composition := [], extends_ := [] }) = some s :=
  ⟨by simp only [wellFormed, oneTypeParser]; decide,
    c8_render_total _ (by simp only [wellFormed, oneTypeParser]; decide)⟩

theorem lookupA_modifyStruct (p : ClassParser) (name : String) (f : Struct → Struct)
    (pk : String) :
    lookupA (modifyStruct p name f).structure_ pk =
      if pk = p.currentPackageName then
        some (setA (curPkgMap p) name (f ((lookupCur p name).getD (newStruct p.currentPackageName))))
      else lookupA p.structure_ pk := by
  by_cases hpk : pk = p.currentPackageName
  · rw [if_pos hpk]
    subst hpk
    simp only [modifyStruct]
    exact lookupA_setA_self _ _ _
  · rw [if_neg hpk]
    simp only [modifyStruct]
    exact lookupA_setA_ne _ _ hpk

theorem lookupCur_modify_self (p : ClassParser) (name : String) (f : Struct → Struct) :
    lookupCur (modifyStruct p name f) name
      = some (f ((lookupCur p name).getD (newStruct p.currentPackageName))) := by
  have hcur : (modifyStruct p name f).currentPackageName = p.currentPackageName := rfl
  simp only [lookupCur, curPkgMap, hcur, lookupA_modifyStruct, if_pos rfl, Option.getD_some]
  exact lookupA_setA_self _ _ _

theorem kindAssignedExcept_of (p : ClassParser) (name : String) (h : kindAssigned p) :
    kindAssignedExcept p name :=
  fun pk m hm n st hst => Or.inr (h pk m hm n st hst)

theorem kindAssignedExcept_modify (p : ClassParser) (name : String) (f : Struct → Struct)
    (h : kindAssignedExcept p name) :
    kindAssignedExcept (modifyStruct p name f) name := by
  intro pk m hm n st hst
  have hcur : (modifyStruct p name f).currentPackageName = p.currentPackageName := rfl
  rw [hcur]
  rw [lookupA_modifyStruct] at hm
  by_cases hpk : pk = p.currentPackageName
  · rw [if_pos hpk] at hm
    cases hm
    by_cases hn : n = name
    · exact Or.inl ⟨hpk, hn⟩
    · rw [lookupA_setA_ne _ _ hn] at hst
      cases hS : lookupA p.structure_ p.currentPackageName with
      | none => rw [curPkgMap, hS] at hst; simp [lookupA] at hst
      | some m0 =>
        rw [curPkgMap, hS, Option.getD_some] at hst
        rcases h p.currentPackageName m0 hS n st hst with ⟨_, hn'⟩ | hok
        · exact absurd hn' hn
        · exact Or.inr hok
  · rw [if_neg hpk] at hm
    rcases h pk m hm n st hst with ⟨hpk', _⟩ | hok
    · exact absurd hpk' hpk
    · exact Or.inr hok

theorem kindAssigned_modify (p : ClassParser) (name : String) (f : Struct → Struct)
    (h : kindAssignedExcept p name)
    (hf : (f ((lookupCur p name).getD (newStruct p.currentPackageName))).type_ = "class" ∨
      (f ((lookupCur p name).getD (newStruct p.currentPackageName))).type_ = "interface") :
    kindAssigned (modifyStruct p name f) := by
  intro pk m hm n st hst
  rw [lookupA_modifyStruct] at hm
  by_cases hpk : pk = p.currentPackageName
  · rw [if_pos hpk] at hm
    cases hm
    by_cases hn : n = name
    · subst hn
      rw [lookupA_setA_self] at hst
      cases hst
      exact hf
    · rw [lookupA_setA_ne _ _ hn] at hst
      cases hS : lookupA p.structure_ p.currentPackageName with
      | none => rw [curPkgMap, hS] at hst; simp [lookupA] at hst
      | some m0 =>
        rw [curPkgMap, hS, Option.getD_some] at hst
        rcases h p.currentPackageName m0 hS n st hst with ⟨_, hn'⟩ | hok
        · exact absurd hn' hn
        · exact hok
  · rw [if_neg hpk] at hm
    rcases h pk m hm n st hst with ⟨hpk', _⟩ | hok
    · exact absurd hpk' hpk
    · exact hok

theorem kindAssignedExcept_foldl {β : Type} (name : String) (g : β → Struct → Struct)
    (fs : List β) :
    ∀ p : ClassParser, kindAssignedExcept p name →
      kindAssignedExcept (fs.foldl (fun p f => modifyStruct p name (g f)) p) name := by
  induction fs with
  | nil => intro p h; exact h
  | cons f rest ih =>
    intro p h
    exact ih _ (kindAssignedExcept_modify p name (g f) h)

theorem kindAssigned_allStructs (p : ClassParser) (x : List String) :
    kindAssigned { p with allStructs := x } ↔ kindAssigned p := Iff.rfl

theorem kindAssigned_allInterfaces (p : ClassParser) (x : List String) :
    kindAssigned { p with allInterfaces := x } ↔ kindAssigned p := Iff.rfl

theorem kindAssigned_parseFileDeclarations (p : ClassParser) (d : Decl)
    (h : kindAssigned p) : kindAssigned (parseFileDeclarations p d) := by
  cases d with
  | genDecl spec0 restSpecs =>
    cases spec0 with
    | otherSpec => exact h
    | typeSpec typeName ty =>
      cases ty with
      | otherType => exact h
      | structType fs =>
        show kindAssigned _
        simp only [parseFileDeclarations]
        rw [kindAssigned_allStructs]
        exact kindAssigned_modify _ typeName _
          (kindAssignedExcept_foldl typeName Struct.addField fs p
            (kindAssignedExcept_of p typeName h))
          (Or.inl rfl)
      | interfaceType ms =>
        show kindAssigned _
        simp only [parseFileDeclarations]
        rw [kindAssigned_allInterfaces]
        exact kindAssigned_modify _ typeName _
          (kindAssignedExcept_foldl typeName Struct.addMethod ms p
            (kindAssignedExcept_of p typeName h))
          (Or.inr rfl)
  | funcDecl recv nm ps rs =>
    cases recv with
    | none => exact h
    | some r =>
      show kindAssigned _
      simp only [parseFileDeclarations]
      apply kindAssigned_modify _ _ _ (kindAssignedExcept_of _ _ h)
      cases hl : lookupCur p (stripStar (getFieldType r)) with
      | none =>
        left
        simp [newStruct, Struct.addMethod]
      | some st0 =>
        simp only [Option.getD_some]
        have hok : st0.type_ = "class" ∨ st0.type_ = "interface" := by
          rw [lookupCur] at hl
          cases hS : lookupA p.structure_ p.currentPackageName with
          | none => rw [curPkgMap, hS] at hl; simp [lookupA] at hl
          | some m0 =>
            rw [curPkgMap, hS, Option.getD_some] at hl
            exact h p.currentPackageName m0 hS _ st0 hl
        have hne : st0.type_ ≠ "" := by
          rcases hok with h1 | h1 <;> rw [h1] <;> decide
        rw [if_neg hne]
        simpa [Struct.addMethod] using hok

theorem kindAssigned_foldlDecls (ds : List Decl) :
    ∀ p : ClassParser, kindAssigned p → kindAssigned (ds.foldl parseFileDeclarations p) := by
  induction ds with
  | nil => intro p h; exact h
  | cons d rest ih =>
    intro p h
    exact ih _ (kindAssigned_parseFileDeclarations p d h)

theorem kindAssigned_setA_empty (p : ClassParser) (k : String)
    (h : kindAssigned p) :
    kindAssigned { p with structure_ := setA p.structure_ k [] } := by
  intro pk m hm n st hst
  by_cases hpk : pk = k
  · subst hpk
    rw [show ({ p with structure_ := setA p.structure_ pk [] } : ClassParser).structure_
      = setA p.structure_ pk [] from rfl, lookupA_setA_self] at hm
    cases hm
    simp [lookupA] at hst
  · rw [show ({ p with structure_ := setA p.structure_ k [] } : ClassParser).structure_
      = setA p.structure_ k [] from rfl, lookupA_setA_ne _ _ hpk] at hm
    exact h pk m hm n st hst

theorem kindAssigned_currentPackage (p : ClassParser) (x : String) :
    kindAssigned { p with currentPackageName := x } ↔ kindAssigned p := Iff.rfl

theorem kindAssigned_parsePackage (p : ClassParser) (pack : Package)
    (h : kindAssigned p) : kindAssigned (parsePackage p pack) := by
  simp only [parsePackage]
  have h1 : kindAssigned { p with currentPackageName := pack.name } :=
    (kindAssigned_currentPackage p pack.name).mpr h
  set p1 : ClassParser := { p with currentPackageName := pack.name } with hp1
  have h2 : kindAssigned (if (lookupA p1.structure_ p1.currentPackageName).isSome then p1
      else { p1 with structure_ := setA p1.structure_ p1.currentPackageName [] }) := by
    by_cases hS : (lookupA p1.structure_ p1.currentPackageName).isSome
    · rw [if_pos hS]; exact h1
    · rw [if_neg hS]; exact kindAssigned_setA_empty p1 _ h1
  generalize (if (lookupA p1.structure_ p1.currentPackageName).isSome then p1
      else { p1 with structure_ := setA p1.structure_ p1.currentPackageName [] }) = p2 at h2
  clear hp1
  induction pack.files generalizing p2 with
  | nil => exact h2
  | cons file rest ih =>
    simp only [List.foldl]
    apply ih
    by_cases ht : file.1.endsWith "_test.go"
    · rw [if_pos ht]; exact h2
    · rw [if_neg ht]; exact kindAssigned_foldlDecls file.2 p2 h2

theorem kindAssigned_addToExtends (p : ClassParser) (s i : String)
    (h : kindAssigned p) : kindAssigned (addToExtends p s i) := by
  cases hsp : splitFirstDot s with
  | none => simpa [addToExtends, hsp] using h
  | some q =>
    obtain ⟨pack, rest⟩ := q
    cases hS : lookupA p.structure_ pack with
    | none => simpa [addToExtends, hsp, hS] using h
    | some m =>
      cases hst : lookupA m rest with
      | none => simpa [addToExtends, hsp, hS, hst] using h
      | some st =>
        intro pk m' hm' n st' hst'
        simp only [addToExtends, hsp, hS, hst] at hm'
        by_cases hpk : pk = pack
        · subst hpk
          rw [lookupA_setA_self] at hm'
          cases hm'
          by_cases hn : n = rest
          · subst hn
            rw [lookupA_setA_self] at hst'
            cases hst'
            exact h pk m hS _ st hst
          · rw [lookupA_setA_ne _ _ hn] at hst'
            exact h pk m hS n st' hst'
        · rw [lookupA_setA_ne _ _ hpk] at hm'
          exact h pk m' hm' n st' hst'

theorem kindAssigned_resolveStepInner (s : String) (acc : ClassParser) (i : String)
    (h : kindAssigned acc) : kindAssigned (resolveStepInner s acc i) := by
  cases h1 : getStruct acc s with
  | none => simpa [resolveStepInner, h1] using h
  | some st =>
    cases h2 : getStruct acc i with
    | none => simpa [resolveStepInner, h1, h2] using h
    | some inter =>
      by_cases himp : implementsInterface st inter
      · simpa [resolveStepInner, h1, h2, himp] using kindAssigned_addToExtends acc s i h
      · simpa [resolveStepInner, h1, h2, himp] using h

theorem kindAssigned_foldlInner (s : String) (ints : List String) :
    ∀ acc : ClassParser, kindAssigned acc →
      kindAssigned (ints.foldl (resolveStepInner s) acc) := by
  induction ints with
  | nil => intro acc h; exact h
  | cons i rest ih =>
    intro acc h
    exact ih _ (kindAssigned_resolveStepInner s acc i h)

theorem kindAssigned_resolveStepOuter (acc : ClassParser) (s : String)
    (h : kindAssigned acc) : kindAssigned (resolveStepOuter acc s) := by
  cases h1 : getStruct acc s with
  | none => simpa [resolveStepOuter, h1] using h
  | some st =>
    simpa [resolveStepOuter, h1] using kindAssigned_foldlInner s acc.allInterfaces acc h

theorem kindAssigned_resolveInterfaces (p : ClassParser)
    (h : kindAssigned p) : kindAssigned (resolveInterfaces p) := by
  rw [resolveInterfaces]
  generalize p.allStructs = l
  induction l generalizing p with
  | nil => exact h
  | cons s rest ih =>
    exact ih _ (kindAssigned_resolveStepOuter p s h)

theorem kindAssigned_foldlPackages (pkgs : List Package) :
    ∀ p : ClassParser, kindAssigned p → kindAssigned (pkgs.foldl parsePackage p) := by
  induction pkgs with
  | nil => intro p h; exact h
  | cons pack rest ih =>
    intro p h
    exact ih _ (kindAssigned_parsePackage p pack h)

/-- C10: after building and resolving any sequence of packages, every entity
reachable in the namespace table has a terminal kind (`class` or
`interface`): no entity created by `getOrCreateStruct` survives a handler
with its kind still unset. -/
theorem c10_kind_assigned (pkgs : List Package) (cp : ClassParser)
    (h : newClassDiagram (Except.ok pkgs) = Except.ok cp) : kindAssigned cp := by
  have hcp : cp = resolveInterfaces (pkgs.foldl parsePackage emptyParser) := by
    simpa [newClassDiagram] using h.symm
  subst hcp
  apply kindAssigned_resolveInterfaces
  have hempty : kindAssigned emptyParser := by
    intro pk m hm n st hst
    simp [emptyParser, lookupA] at hm
  exact kindAssigned_foldlPackages pkgs emptyParser hempty

/-- C10 witness: the invariant holds for the concrete built model `c1cp`. -/
theorem c10_kind_assigned_witness : kindAssigned c1cp :=
  c10_kind_assigned [c1Pkg] c1cp rfl

theorem lookupCur_setAllStructs (p : ClassParser) (x : List String) (n : String) :
    lookupCur { p with allStructs := x } n = lookupCur p n := rfl

theorem lookupCur_setAllInterfaces (p : ClassParser) (x : List String) (n : String) :
    lookupCur { p with allInterfaces := x } n = lookupCur p n := rfl

/-- C2 counterexample: the type `Dog`, first seen via a receiver method, is
assigned kind Record; a later interface declaration of the same name
overwrites it to Interface, so the first-assigned kind is not kept. -/
theorem c2_counterexample :
    (getStruct c2p1 "p.Dog").map Struct.type_ = some "class" ∧
    (getStruct c2p2 "p.Dog").map Struct.type_ = some "interface" :=
  ⟨rfl, rfl⟩

/-- C2 amended: the receiver-method path assigns kind Record only when the
kind is still unset and never overwrites an assigned kind, but a
struct/interface declaration assigns its kind unconditionally, overwriting
any previously assigned kind (the last such declaration wins). -/
theorem c2_amended_kind_transitions :
    (∀ (p : ClassParser) (r nm : String) (ps : List (String × String)) (rs : List String)
      (st : Struct), lookupCur p (stripStar (getFieldType r)) = some st → st.type_ ≠ "" →
      (lookupCur (parseFileDeclarations p (Decl.funcDecl (some r) nm ps rs))
        (stripStar (getFieldType r))).map Struct.type_ = some st.type_) ∧
    (∀ (p : ClassParser) (r nm : String) (ps : List (String × String)) (rs : List String),
      (lookupCur p (stripStar (getFieldType r)) = none ∨
        ∃ st, lookupCur p (stripStar (getFieldType r)) = some st ∧ st.type_ = "") →
      (lookupCur (parseFileDeclarations p (Decl.funcDecl (some r) nm ps rs))
        (stripStar (getFieldType r))).map Struct.type_ = some "class") ∧
    (∀ (p : ClassParser) (typeName : String) (fs : List RawField) (l : List SpecAst),
      (lookupCur (parseFileDeclarations p
        (Decl.genDecl (SpecAst.typeSpec typeName (TypeExprAst.structType fs)) l))
        typeName).map Struct.type_ = some "class") ∧
    (∀ (p : ClassParser) (typeName : String) (ms : List Function) (l : List SpecAst),
      (lookupCur (parseFileDeclarations p
        (Decl.genDecl (SpecAst.typeSpec typeName (TypeExprAst.interfaceType ms)) l))
        typeName).map Struct.type_ = some "interface") := by
  refine ⟨?_, ?_, ?_, ?_⟩
  · intro p r nm ps rs st hl hne
    simp only [parseFileDeclarations, lookupCur_modify_self, hl, Option.getD_some,
      Option.map_some', hne, if_false, Struct.addMethod]
  · intro p r nm ps rs hcase
    rcases hcase with hnone | ⟨st, hsome, hty⟩
    · simp [parseFileDeclarations, lookupCur_modify_self, hnone, newStruct, Struct.addMethod]
    · simp [parseFileDeclarations, lookupCur_modify_self, hsome, hty, Struct.addMethod]
  · intro p typeName fs l
    simp only [parseFileDeclarations, lookupCur_setAllStructs, lookupCur_modify_self]
    rfl
  · intro p typeName ms l
    simp only [parseFileDeclarations, lookupCur_setAllInterfaces, lookupCur_modify_self]
    rfl

/-- C2 witness: the amended theorem's receiver clause applied to `c2p2`, in
which `Dog` already has kind Interface: a further receiver method keeps it. -/
theorem c2_amended_kind_transitions_witness :
    (lookupCur (parseFileDeclarations c2p2 (Decl.funcDecl (some "Dog") "Woof" [] []))
      "Dog").map Struct.type_ = some "interface" := by
  have h := c2_amended_kind_transitions.1 c2p2 "Dog" "Woof" [] []
    { packageName := "p", type_ := "interface", fields := [],
      functions := [{ name := "Bark", parameters := [], returnValues := [] }],
      composition := [], extends_ := [] }
    (by decide) (by decide)
  exact h

theorem extendsOnly_refl (a : Struct) : extendsOnly a a :=
  ⟨rfl, rfl, rfl, rfl, [], (List.append_nil _).symm⟩

theorem extendsOnly_trans {a b c : Struct} (h1 : extendsOnly a b) (h2 : extendsOnly b c) :
    extendsOnly a c := by
  obtain ⟨p1, t1, f1, fn1, tl1, e1⟩ := h1
  obtain ⟨p2, t2, f2, fn2, tl2, e2⟩ := h2
  exact ⟨p2.trans p1, t2.trans t1, f2.trans f1, fn2.trans fn1, tl1 ++ tl2,
    by rw [e2, e1, List.append_assoc]⟩

theorem frame_refl (p : ClassParser) : frame p p :=
  ⟨rfl, rfl, rfl, fun _ => ⟨fun st h => ⟨st, h, extendsOnly_refl st⟩, fun h => h⟩⟩

theorem frame_trans {p q r : ClassParser} (h1 : frame p q) (h2 : frame q r) : frame p r := by
  obtain ⟨c1, i1, s1, f1⟩ := h1
  obtain ⟨c2, i2, s2, f2⟩ := h2
  refine ⟨c2.trans c1, i2.trans i1, s2.trans s1, fun n => ⟨?_, ?_⟩⟩
  · intro st h
    obtain ⟨st', h', e'⟩ := (f1 n).1 st h
    obtain ⟨st'', h'', e''⟩ := (f2 n).1 st' h'
    exact ⟨st'', h'', extendsOnly_trans e' e''⟩
  · intro h
    exact (f2 n).2 ((f1 n).2 h)

theorem getStruct_update (p : ClassParser) (pack rest : String) (m : List (String × Struct))
    (st' : Struct) (hS : lookupA p.structure_ pack = some m) (n : String) :
    getStruct { p with structure_ := setA p.structure_ pack (setA m rest st') } n =
      if splitFirstDot n = some (pack, rest) then some st' else getStruct p n := by
  cases hspn : splitFirstDot n with
  | none => simp [getStruct, hspn]
  | some qn =>
    obtain ⟨pn, rn⟩ := qn
    simp only [getStruct, hspn]
    by_cases hpn : pn = pack
    · subst hpn
      rw [lookupA_setA_self, hS]
      by_cases hrn : rn = rest
      · subst hrn
        simp [lookupA_setA_self]
      · simp [lookupA_setA_ne _ _ hrn, hrn]
    · simp [lookupA_setA_ne _ _ hpn, hpn]

theorem frame_addToExtends (p : ClassParser) (s i : String) :
    frame p (addToExtends p s i) := by
  cases hsp : splitFirstDot s with
  | none => simp only [addToExtends, hsp]; exact frame_refl p
  | some q =>
    obtain ⟨pack, rest⟩ := q
    cases hS : lookupA p.structure_ pack with
    | none => simp only [addToExtends, hsp, hS]; exact frame_refl p
    | some m =>
      cases hst : lookupA m rest with
      | none => simp only [addToExtends, hsp, hS, hst]; exact frame_refl p
      | some st =>
        simp only [addToExtends, hsp, hS, hst]
        refine ⟨rfl, rfl, rfl, fun n => ⟨?_, ?_⟩⟩
        · intro st0 h0
          rw [getStruct_update p pack rest m _ hS n]
          by_cases hcond : splitFirstDot n = some (pack, rest)
          · rw [if_pos hcond]
            have h0' : lookupA m rest = some st0 := by
              simp only [getStruct, hcond, hS] at h0
              exact h0
            have hsteq : st0 = st := by
              rw [h0'] at hst; exact Option.some.inj hst
            subst hsteq
            exact ⟨_, rfl, rfl, rfl, rfl, rfl, [i], rfl⟩
          · rw [if_neg hcond]
            exact ⟨st0, h0, extendsOnly_refl st0⟩
        · intro h0
          rw [getStruct_update p pack rest m _ hS n]
          by_cases hcond : splitFirstDot n = some (pack, rest)
          · exfalso
            simp only [getStruct, hcond, hS, hst] at h0
            exact Option.noConfusion h0
          · rw [if_neg hcond]
            exact h0

theorem frame_resolveStepInner (s : String) (acc : ClassParser) (i : String) :
    frame acc (resolveStepInner s acc i) := by
  cases h1 : getStruct acc s with
  | none => simp only [resolveStepInner, h1]; exact frame_refl acc
  | some st =>
    cases h2 : getStruct acc i with
    | none => simp only [resolveStepInner, h1, h2]; exact frame_refl acc
    | some inter =>
      by_cases himp : implementsInterface st inter
      · simp only [resolveStepInner, h1, h2, himp, if_true]
        exact frame_addToExtends acc s i
      · simp only [resolveStepInner, h1, h2, himp, if_false]
        exact frame_refl acc

theorem frame_foldlInner (s : String) (ints : List String) :
    ∀ acc : ClassParser, frame acc (ints.foldl (resolveStepInner s) acc) := by
  induction ints with
  | nil => intro acc; exact frame_refl acc
  | cons j rest ih =>
    intro acc
    exact frame_trans (frame_resolveStepInner s acc j) (ih _)

theorem frame_resolveStepOuter (acc : ClassParser) (s : String) :
    frame acc (resolveStepOuter acc s) := by
  cases h1 : getStruct acc s with
  | none => simp only [resolveStepOuter, h1]; exact frame_refl acc
  | some st =>
    simp only [resolveStepOuter, h1]
    exact frame_foldlInner s acc.allInterfaces acc

theorem frame_foldlOuter (l : List String) :
    ∀ acc : ClassParser, frame acc (l.foldl resolveStepOuter acc) := by
  induction l with
  | nil => intro acc; exact frame_refl acc
  | cons x rest ih =>
    intro acc
    exact frame_trans (frame_resolveStepOuter acc x) (ih _)

theorem frame_resolveInterfaces (p : ClassParser) : frame p (resolveInterfaces p) :=
  frame_foldlOuter p.allStructs p

theorem implements_congr {a a' b b' : Struct} (ha : a'.functions = a.functions)
    (hb : b'.functions = b.functions) :
    implementsInterface a' b' = implementsInterface a b := by
  simp [implementsInterface, ha, hb]

theorem getStruct_addToExtends_self (p : ClassParser) (s i : String) (st : Struct)
    (h : getStruct p s = some st) :
    getStruct (addToExtends p s i) s = some { st with extends_ := st.extends_ ++ [i] } := by
  cases hsp : splitFirstDot s with
  | none => simp [getStruct, hsp] at h
  | some q =>
    obtain ⟨pack, rest⟩ := q
    simp only [getStruct, hsp] at h
    cases hS : lookupA p.structure_ pack with
    | none => rw [hS] at h; exact Option.noConfusion h
    | some m =>
      rw [hS] at h
      have h2 : lookupA m rest = some st := h
      simp only [addToExtends, hsp, hS, h2]
      rw [getStruct_update p pack rest m _ hS s, if_pos hsp]

theorem inner_adds (s : String) (ints : List String) :
    ∀ (acc : ClassParser) (i : String) (st inter : Struct),
      i ∈ ints → getStruct acc s = some st → getStruct acc i = some inter →
      implementsInterface st inter = true →
      ∃ st', getStruct (ints.foldl (resolveStepInner s) acc) s = some st' ∧
        i ∈ st'.extends_ := by
  induction ints with
  | nil => intro acc i st inter hmem _ _ _; simp at hmem
  | cons j rest ih =>
    intro acc i st inter hmem hs hi himp
    simp only [List.foldl]
    rcases List.mem_cons.mp hmem with heq | hmem'
    · subst heq
      have hstep : resolveStepInner s acc i = addToExtends acc s i := by
        simp [resolveStepInner, hs, hi, himp]
      rw [hstep]
      have hafter := getStruct_addToExtends_self acc s i st hs
      have hframe := frame_foldlInner s rest (addToExtends acc s i)
      obtain ⟨st'', h'', e''⟩ := (hframe.2.2.2 s).1 _ hafter
      refine ⟨st'', h'', ?_⟩
      obtain ⟨_, _, _, _, tl, he⟩ := e''
      rw [he]
      simp
    · have hframe := frame_resolveStepInner s acc j
      obtain ⟨st2, hs2, e2⟩ := (hframe.2.2.2 s).1 _ hs
      obtain ⟨inter2, hi2, ei2⟩ := (hframe.2.2.2 i).1 _ hi
      have himp2 : implementsInterface st2 inter2 = true := by
        rw [implements_congr e2.2.2.2.1 ei2.2.2.2.1]
        exact himp
      exact ih _ i st2 inter2 hmem' hs2 hi2 himp2

theorem outer_adds (l : List String) :
    ∀ (acc : ClassParser) (s i : String) (st inter : Struct),
      s ∈ l → i ∈ acc.allInterfaces →
      getStruct acc s = some st → getStruct acc i = some inter →
      implementsInterface st inter = true →
      ∃ st', getStruct (l.foldl resolveStepOuter acc) s = some st' ∧
        i ∈ st'.extends_ := by
  induction l with
  | nil => intro acc s i st inter hmem _ _ _ _; simp at hmem
  | cons x rest ih =>
    intro acc s i st inter hmem hint hs hi himp
    simp only [List.foldl]
    rcases List.mem_cons.mp hmem with heq | hmem'
    · subst heq
      have hstep : resolveStepOuter acc s = acc.allInterfaces.foldl (resolveStepInner s) acc := by
        simp [resolveStepOuter, hs]
      rw [hstep]
      obtain ⟨st', h', hin⟩ := inner_adds s acc.allInterfaces acc i st inter hint hs hi himp
      have hframe := frame_foldlOuter rest (acc.allInterfaces.foldl (resolveStepInner s) acc)
      obtain ⟨st'', h'', e''⟩ := (hframe.2.2.2 s).1 _ h'
      refine ⟨st'', h'', ?_⟩
      obtain ⟨_, _, _, _, tl, he⟩ := e''
      rw [he]
      exact List.mem_append_left _ hin
    · have hframe := frame_resolveStepOuter acc x
      obtain ⟨st2, hs2, e2⟩ := (hframe.2.2.2 s).1 _ hs
      obtain ⟨inter2, hi2, ei2⟩ := (hframe.2.2.2 i).1 _ hi
      have hint2 : i ∈ (resolveStepOuter acc x).allInterfaces := by
        rw [hframe.2.1]; exact hint
      have himp2 : implementsInterface st2 inter2 = true := by
        rw [implements_congr e2.2.2.2.1 ei2.2.2.2.1]
        exact himp
      exact ih _ s i st2 inter2 hmem' hint2 hs2 hi2 himp2

/-- C1 amended: the resolution pass adds the interface's fully-qualified
name to the extends set of every type registered in `allStructs` (those
declared via a struct declaration) that structurally implements it; Record
types that were never struct-declared (receiver-only types) are skipped. -/
theorem c1_amended_resolution (p : ClassParser) (s i : String) (st inter : Struct)
    (hs : s ∈ p.allStructs) (hi : i ∈ p.allInterfaces)
    (hgs : getStruct (resolveInterfaces p) s = some st)
    (hgi : getStruct (resolveInterfaces p) i = some inter)
    (himp : implementsInterface st inter = true) :
    i ∈ st.extends_ := by
  have hframe := frame_resolveInterfaces p
  cases h0 : getStruct p s with
  | none =>
    have hn := (hframe.2.2.2 s).2 h0
    rw [hgs] at hn
    exact Option.noConfusion hn
  | some st0 =>
    cases h0i : getStruct p i with
    | none =>
      have hn := (hframe.2.2.2 i).2 h0i
      rw [hgi] at hn
      exact Option.noConfusion hn
    | some inter0 =>
      obtain ⟨st1, hst1, est⟩ := (hframe.2.2.2 s).1 _ h0
      obtain ⟨inter1, hint1, eint⟩ := (hframe.2.2.2 i).1 _ h0i
      rw [hgs] at hst1
      rw [hgi] at hint1
      have hst1e : st = st1 := Option.some.inj hst1
      have hint1e : inter = inter1 := Option.some.inj hint1
      have himp0 : implementsInterface st0 inter0 = true := by
        rw [← implements_congr est.2.2.2.1 eint.2.2.2.1, ← hst1e, ← hint1e]
        exact himp
      obtain ⟨st', h', hin⟩ := outer_adds p.allStructs p s i st0 inter0 hs hi h0 h0i himp0
      have : getStruct (resolveInterfaces p) s = some st' := h'
      rw [hgs] at this
      rw [Option.some.inj this]
      exact hin

/-- C1 counterexample: `Dog` has kind Record in the full model and every
method of the interface `Speaker` has an exact match on it, yet after
resolution `p.Speaker` is not in `Dog`'s extends set, because `Dog` was
never registered in `allStructs` (it was only seen as a method receiver). -/
theorem c1_counterexample :
    newClassDiagram (Except.ok [c1Pkg]) = Except.ok c1cp ∧
    (getStruct c1cp "p.Dog").map Struct.type_ = some "class" ∧
    ((getStruct c1cp "p.Dog").bind
      (fun d => (getStruct c1cp "p.Speaker").map (implementsInterface d))) = some true ∧
    (getStruct c1cp "p.Dog").map (fun d => d.extends_.contains "p.Speaker") = some false :=
  ⟨rfl, by decide, by decide, by decide⟩

/-- C1 witness: the amended theorem applied to the struct-declared `Cat`,
which does acquire the extends edge to `p.Speaker`. -/
theorem c1_amended_resolution_witness :
    "p.Cat" ∈ c1wParser.allStructs ∧ "p.Speaker" ∈ c1wParser.allInterfaces ∧
    "p.Speaker" ∈
      ({ packageName := "p", type_ := "class", fields := [],
         functions := [{ name := "Speak", parameters := [], returnValues := ["string"] }],
         composition := [], extends_ := ["p.Speaker"] } : Struct).extends_ := by
  refine ⟨by decide, by decide, ?_⟩
  exact c1_amended_resolution c1wParser "p.Cat" "p.Speaker"
    { packageName := "p", type_ := "class", fields := [],
      functions := [{ name := "Speak", parameters := [], returnValues := ["string"] }],
      composition := [], extends_ := ["p.Speaker"] }
    { packageName := "p", type_ := "interface", fields := [],
      functions := [{ name := "Speak", parameters := [], returnValues := ["string"] }],
      composition := [], extends_ := [] }
    (by decide) (by decide) (by decide) (by decide) (by decide)

end GoPlantUml
